import Mathlib

/-!
Verification of the secure-channel layer of the `anon-poc` messenger
(`src/anon_messenger.py`), shallowly embedded in Lean 4.

Modelling conventions:
* Python `bytes` values are `List Nat` with every element `< 256`.
* Python `str` values are lists of Unicode scalar values (`List Nat`),
  converted to bytes by a faithful UTF-8 encoder and back by a strict
  UTF-8 decoder (Python's default `encode("utf-8")` / `decode("utf-8")`).
* Randomness (`secrets.randbelow`, `secrets.token_bytes`) is made explicit:
  `_pad_message`'s drawn padding size becomes the `padSize` argument and
  the stream of random bytes becomes a function `rand : Nat → Nat`.
* The Fernet AEAD is kept abstract as a `Cipher` record of an encryption
  and a decryption function; theorems that need its correctness take the
  hypothesis `∀ x, dec (enc x) = some x`, which the real library provides.
* Python exceptions are modelled as `Option`/`PyOutcome` failure values at
  each call that can raise; `try/except` blocks map the failure to the
  handler's result, exactly as in the source.
* Wall-clock behaviour (`_apply_timing_obfuscation`, `last_send_time`) is
  not part of any value-level claim and is omitted from the state.
-/

/-- `MESSAGE_SIZES` from the source: the fixed frame-size buckets. -/
def MESSAGE_SIZES : List Nat := [512, 1024, 2048, 4096]

/-- `struct.pack(">I", n)`: the 4-byte big-endian encoding of `n`. -/
def pack32 (n : Nat) : List Nat :=
  [n / 16777216 % 256, n / 65536 % 256, n / 256 % 256, n % 256]

/-- `struct.unpack(">I", bs)[0]` on (at least) 4 bytes. -/
def unpack32 : List Nat → Nat
  | a :: b :: c :: d :: _ => ((a * 256 + b) * 256 + c) * 256 + d
  | _ => 0

/-- `next(size for size in MESSAGE_SIZES if size >= n)`, with the
`StopIteration` that `next` raises when no bucket fits modelled as `none`. -/
def bucket (n : Nat) : Option Nat :=
  MESSAGE_SIZES.find? (fun s => decide (n ≤ s))

/-- The padding adjustment of `_pad_message`: the drawn random padding
(`padSize` bytes, so `len(padding) = padSize`) is extended with fresh
random bytes when `total_padding_needed` exceeds its length, and
truncated to `total_padding_needed` otherwise. -/
def padFill (padSize : Nat) (rand : Nat → Nat) (total : Nat) : List Nat :=
  if padSize < total then
    (List.range padSize).map rand ++
      (List.range (total - padSize)).map (fun i => rand (padSize + i))
  else
    ((List.range padSize).map rand).take total

/-- `SecureMessenger._pad_message` on a `bytes` input.  `padSize` is the
drawn value of `secrets.randbelow(64) + 16` (so the source always supplies
`16 ≤ padSize ≤ 79`), and `rand` supplies the bytes of the two
`secrets.token_bytes` calls.  `current_size` in the source is
`len(message_bytes) + len(padding) + 4` with `len(padding) = padSize`.
Returns `none` when `next` raises `StopIteration` (message too large for
every bucket). -/
def pad_message (msg : List Nat) (padSize : Nat) (rand : Nat → Nat) :
    Option (List Nat) :=
  match bucket (msg.length + padSize + 4) with
  | none => none
  | some target =>
    some (pack32 msg.length ++ msg ++
      padFill padSize rand (target - msg.length - 4))

/-- `SecureMessenger._unpad_message`: reject frames shorter than 4 bytes,
reject a declared length larger than the remaining bytes, otherwise return
exactly the declared number of bytes (zero-length included). -/
def unpad_message (padded : List Nat) : Option (List Nat) :=
  if padded.length < 4 then none
  else
    let mlen := unpack32 (padded.take 4)
    if padded.length - 4 < mlen then none
    else some ((padded.drop 4).take mlen)

/-!
### UTF-8

Python `str.encode("utf-8")` / `bytes.decode("utf-8")`, on strings viewed
as lists of Unicode scalar values.  The decoder is strict, as in Python:
it rejects continuation-byte errors, overlong encodings, surrogates and
code points above `U+10FFFF`.
-/

/-- A Unicode scalar value: what a Python `str` character encodes to. -/
def ValidCp (c : Nat) : Prop := c < 1114112 ∧ ¬(55296 ≤ c ∧ c ≤ 57343)

instance : DecidablePred ValidCp := fun _ => by unfold ValidCp; infer_instance

def utf8EncodeChar (c : Nat) : List Nat :=
  if c < 128 then [c]
  else if c < 2048 then [192 + c / 64, 128 + c % 64]
  else if c < 65536 then [224 + c / 4096, 128 + c / 64 % 64, 128 + c % 64]
  else [240 + c / 262144, 128 + c / 4096 % 64, 128 + c / 64 % 64, 128 + c % 64]

def utf8Encode : List Nat → List Nat
  | [] => []
  | c :: rest => utf8EncodeChar c ++ utf8Encode rest

def utf8Decode : List Nat → Option (List Nat)
  | [] => some []
  | b :: rest =>
    if b < 128 then (utf8Decode rest).map (fun cs => b :: cs)
    else if b < 194 then none
    else
      match rest with
      | [] => none
      | b1 :: rest1 =>
        if b < 224 then
          if 128 ≤ b1 ∧ b1 < 192 then
            (utf8Decode rest1).map (fun cs => ((b - 192) * 64 + (b1 - 128)) :: cs)
          else none
        else
          match rest1 with
          | [] => none
          | b2 :: rest2 =>
            if b < 240 then
              if 128 ≤ b1 ∧ b1 < 192 ∧ 128 ≤ b2 ∧ b2 < 192 ∧
                  2048 ≤ (b - 224) * 4096 + (b1 - 128) * 64 + (b2 - 128) ∧
                  ¬(55296 ≤ (b - 224) * 4096 + (b1 - 128) * 64 + (b2 - 128) ∧
                    (b - 224) * 4096 + (b1 - 128) * 64 + (b2 - 128) ≤ 57343) then
                (utf8Decode rest2).map
                  (fun cs => ((b - 224) * 4096 + (b1 - 128) * 64 + (b2 - 128)) :: cs)
              else none
            else
              match rest2 with
              | [] => none
              | b3 :: rest3 =>
                if b < 245 then
                  if 128 ≤ b1 ∧ b1 < 192 ∧ 128 ≤ b2 ∧ b2 < 192 ∧ 128 ≤ b3 ∧ b3 < 192 ∧
                      65536 ≤ (b - 240) * 262144 + (b1 - 128) * 4096 + (b2 - 128) * 64 + (b3 - 128) ∧
                      (b - 240) * 262144 + (b1 - 128) * 4096 + (b2 - 128) * 64 + (b3 - 128) < 1114112 then
                    (utf8Decode rest3).map
                      (fun cs => ((b - 240) * 262144 + (b1 - 128) * 4096 + (b2 - 128) * 64 + (b3 - 128)) :: cs)
                  else none
                else none

/-!
### URL-safe base64

`base64.urlsafe_b64encode` / `base64.urlsafe_b64decode` on byte lists,
with `61` the code of the padding character `=`.  Python's decoder first
discards characters outside the URL-safe alphabet (default
`validate=False`), then requires a multiple of four characters.
-/

/-- Value-to-character map of the URL-safe base64 alphabet. -/
def b64EncChar (n : Nat) : Nat :=
  if n < 26 then 65 + n
  else if n < 52 then 71 + n
  else if n < 62 then n - 4
  else if n = 62 then 45
  else 95

/-- Character-to-value map; `none` on characters outside the alphabet. -/
def b64DecChar (c : Nat) : Option Nat :=
  if 65 ≤ c ∧ c ≤ 90 then some (c - 65)
  else if 97 ≤ c ∧ c ≤ 122 then some (c - 71)
  else if 48 ≤ c ∧ c ≤ 57 then some (c + 4)
  else if c = 45 then some 62
  else if c = 95 then some 63
  else none

def b64encode : List Nat → List Nat
  | [] => []
  | [a] => [b64EncChar (a / 4), b64EncChar (a % 4 * 16), 61, 61]
  | [a, b] =>
    [b64EncChar (a / 4), b64EncChar (a % 4 * 16 + b / 16),
     b64EncChar (b % 16 * 4), 61]
  | a :: b :: c :: rest =>
    b64EncChar (a / 4) :: b64EncChar (a % 4 * 16 + b / 16) ::
      b64EncChar (b % 16 * 4 + c / 64) :: b64EncChar (c % 64) ::
      b64encode rest

/-- Chunk decoder on alphabet-filtered input: four characters at a time,
`=` padding allowed only in the final chunk; any input whose length is not
a multiple of four is rejected (Python raises `binascii.Error`). -/
def b64decodeRaw : List Nat → Option (List Nat)
  | [] => some []
  | c1 :: c2 :: c3 :: c4 :: rest =>
    (b64DecChar c1).bind fun g1 =>
    (b64DecChar c2).bind fun g2 =>
    if c3 = 61 then
      if c4 = 61 ∧ rest = [] then some [g1 * 4 + g2 / 16] else none
    else
      (b64DecChar c3).bind fun g3 =>
      if c4 = 61 then
        if rest = [] then some [g1 * 4 + g2 / 16, g2 % 16 * 16 + g3 / 4]
        else none
      else
        (b64DecChar c4).bind fun g4 =>
        (b64decodeRaw rest).map (fun bs =>
          (g1 * 4 + g2 / 16) :: (g2 % 16 * 16 + g3 / 4) ::
            (g3 % 4 * 64 + g4) :: bs)
  | _ => none

/-- Keep only alphabet characters and `=`, as Python's non-validating
decoder does before chunking. -/
def b64decode (s : List Nat) : Option (List Nat) :=
  b64decodeRaw (s.filter (fun c => (b64DecChar c).isSome || c == 61))

/-- Python `str.isspace` characters relevant to `str.strip()` (ASCII part;
all stripped characters have code < 45, which is all that matters here). -/
def isPySpace (c : Nat) : Bool :=
  c == 32 || c == 9 || c == 10 || c == 13 || c == 11 || c == 12

/-- `str.strip()`: drop leading and trailing whitespace. -/
def pyStrip (s : List Nat) : List Nat :=
  ((s.dropWhile isPySpace).reverse.dropWhile isPySpace).reverse

/-!
### SecureMessenger

State and operations of `SecureMessenger`.  The Fernet library object is
abstracted as a `Cipher`; `Fernet.encrypt` is total (it never fails on
`bytes` input) and `Fernet.decrypt` either returns the plaintext or raises
`InvalidToken`, modelled as `Option`.
-/

/-- Abstraction of a `cryptography.fernet.Fernet` instance. -/
structure Cipher where
  enc : List Nat → List Nat
  dec : List Nat → Option (List Nat)

/-- The fields of `SecureMessenger.__init__` (minus `last_send_time`,
which only feeds the unmodelled timing delay). -/
structure Messenger where
  key : Option (List Nat)
  cipher_suite : Option Cipher
  private_key : Option Unit
  public_key : Option Unit
  shared_secret : Option (List Nat)
  message_counter : Nat

/-- `SecureMessenger()` fresh instance. -/
def initMessenger : Messenger := ⟨none, none, none, none, none, 0⟩

/-- The `Fernet(key)` constructor: URL-safe-base64-decode the key and
require exactly 32 bytes, else raise (`none`).  `mk` abstracts the
construction of the cipher object from the 32 raw key bytes. -/
def fernetFromKey (mk : List Nat → Cipher) (key : List Nat) : Option Cipher :=
  match b64decode key with
  | some k => if k.length = 32 then some (mk k) else none
  | none => none

/-- `SecureMessenger.generate_key`: `self.key = Fernet.generate_key()`
(the URL-safe base64 encoding of 32 random bytes `raw`),
`self.cipher_suite = Fernet(self.key)`, and the returned connection token
is `base64.urlsafe_b64encode(self.key)` — a second base64 layer. -/
def generate_key (mk : List Nat → Cipher) (raw : List Nat) (st : Messenger) :
    List Nat × Messenger :=
  let key := b64encode raw
  (b64encode key,
   { st with key := some key, cipher_suite := fernetFromKey mk key })

/-- `SecureMessenger.set_key`: strip whitespace, restore base64 padding to
a multiple of four, URL-safe-base64-decode, store the decoded bytes in
`self.key`, then build `Fernet(self.key)`.  Any raising step lands in the
`except` branch, which returns `False`; note that `self.key` is assigned
before `Fernet(self.key)` can raise. -/
def set_key (mk : List Nat → Cipher) (st : Messenger) (keyStr : List Nat) :
    Bool × Messenger :=
  let s0 := pyStrip keyStr
  let s1 := if s0.length % 4 = 0 then s0
            else s0 ++ List.replicate (4 - s0.length % 4) 61
  match b64decode s1 with
  | none => (false, st)
  | some decoded =>
    match fernetFromKey mk decoded with
    | some c =>
      (true, { st with key := some decoded, cipher_suite := some c })
    | none => (false, { st with key := some decoded })

/-- `SecureMessenger.encrypt_message` on a `str` input (a list of scalar
values).  Returns the token and the post-call state.  The `message_counter`
field is never touched by the source's `encrypt_message`. -/
def encrypt_message (st : Messenger) (message : List Nat) (padSize : Nat)
    (rand : Nat → Nat) : Option (List Nat) × Messenger :=
  match st.cipher_suite with
  | none => (none, st)
  | some c =>
    match pad_message (utf8Encode message) padSize rand with
    | none => (none, st)
    | some padded => (some (c.enc padded), st)

/-- Outcome of a Python `try` block body: a normal return value or a
raised exception. -/
inductive PyOutcome (α : Type) where
  | ret : α → PyOutcome α
  | exn : PyOutcome α
deriving DecidableEq

/-- Body of the `try` block of `SecureMessenger.decrypt_message`:
`Fernet.decrypt` (raises on a bad token), then `_unpad_message`; a `None`
unpad result selects the legacy branch that UTF-8-decodes the whole
decrypted payload; `bytes.decode("utf-8")` raises on invalid UTF-8. -/
def decrypt_try (c : Cipher) (token : List Nat) : PyOutcome (Option (List Nat)) :=
  match c.dec token with
  | none => PyOutcome.exn
  | some padded =>
    match unpad_message padded with
    | some msgBytes =>
      match utf8Decode msgBytes with
      | some s => PyOutcome.ret (some s)
      | none => PyOutcome.exn
    | none =>
      match utf8Decode padded with
      | some s => PyOutcome.ret (some s)
      | none => PyOutcome.exn

/-- `SecureMessenger.decrypt_message`: `None` when no cipher suite is set;
otherwise the `try` body's value, with any raised exception turned into
`None` by the `except` handler. -/
def decrypt_message (st : Messenger) (token : List Nat) : Option (List Nat) :=
  match st.cipher_suite with
  | none => none
  | some c =>
    match decrypt_try c token with
    | PyOutcome.ret v => v
    | PyOutcome.exn => none

/-- The reserved plaintext marker `DUMMY:` as scalar values. -/
def dummyMarker : List Nat := [68, 85, 77, 77, 89, 58]

/-- `SecureMessenger.generate_dummy_message`: encrypt `"DUMMY:" + content`
where `content` is the drawn `secrets.token_hex(secrets.randbelow(100) + 50)`
(so the source always supplies hex digits, `100 ≤ len ≤ 298`). -/
def generate_dummy_message (st : Messenger) (content : List Nat)
    (padSize : Nat) (rand : Nat → Nat) : Option (List Nat) × Messenger :=
  encrypt_message st (dummyMarker ++ content) padSize rand

/-- `SecureMessenger.is_dummy_message`: nonempty and starting with the
marker (`decrypted_message and decrypted_message.startswith("DUMMY:")`). -/
def is_dummy_message (m : List Nat) : Bool :=
  !m.isEmpty && dummyMarker.isPrefixOf m

/-- One received frame in `AnonymousClient.receive_messages`, from
decryption on: the value handed to the user-visible sink, or `none` when
the message is dropped.  `if decrypted_msg:` treats the empty string as
falsy, so an empty decrypt is not displayed; a dummy message is dropped
silently. -/
def receive_step (st : Messenger) (token : List Nat) : Option (List Nat) :=
  match decrypt_message st token with
  | some m =>
    if m.isEmpty then none
    else if is_dummy_message m then none
    else some m
  | none => none

/-!
### Relay fan-out (`AnonymousServer.handle_client`)

The forwarding loop `for client in self.clients: ...` iterates by index
over the live list while `self.clients.remove(client)` may shrink it, so
the model is the Python iterator protocol made explicit: fetch index `i`,
run the body, advance to `i + 1`.  Peers are identifiers; `sendOk p`
abstracts whether `p.send(data)` succeeds; a failed send removes the peer
(first occurrence, as `list.remove` does) and closes it.  The function
returns the final peer list and the peers that received the frame, in
send order. -/

def relayLoop (sendOk : Nat → Bool) (sender : Nat) (clients : List Nat)
    (i : Nat) (delivered : List Nat) : List Nat × List Nat :=
  if h : i < clients.length then
    if clients.get ⟨i, h⟩ = sender then
      relayLoop sendOk sender clients (i + 1) delivered
    else if sendOk (clients.get ⟨i, h⟩) then
      relayLoop sendOk sender clients (i + 1) (delivered ++ [clients.get ⟨i, h⟩])
    else
      relayLoop sendOk sender (clients.erase (clients.get ⟨i, h⟩)) (i + 1)
        delivered
  else (clients, delivered)
termination_by clients.length - i
decreasing_by
  · omega
  · omega
  · have := List.length_erase_le (clients.get ⟨i, h⟩) clients
    omega

/-- The broadcast part of `handle_client` after one frame is received
from `sender`. -/
def handle_client_forward (sendOk : Nat → Bool) (clients : List Nat)
    (sender : Nat) : List Nat × List Nat :=
  relayLoop sendOk sender clients 0 []

/-- A concrete cipher satisfying the Fernet correctness hypothesis
`dec (enc x) = some x`; used to instantiate counterexamples and
witnesses. -/
def idCipher : Cipher := ⟨fun x => x, fun x => some x⟩

/-- The reachable state of a fresh `SecureMessenger` right after
`generate_key` — the state every keyed instance of the claims is in. -/
def keyedMessenger : Messenger :=
  (generate_key (fun _ => idCipher) (List.replicate 32 0) initMessenger).2

/-- Hex digits as emitted by `secrets.token_hex`. -/
def isHexDigitChar (ch : Nat) : Bool :=
  (48 ≤ ch && ch ≤ 57) || (97 ≤ ch && ch ≤ 102)

lemma unpack32_pack32 (n : Nat) (h : n < 4294967296) :
    unpack32 (pack32 n) = n := by
  simp only [pack32, unpack32]
  omega

lemma bucket_eq (n : Nat) :
    bucket n =
      if n ≤ 512 then some 512
      else if n ≤ 1024 then some 1024
      else if n ≤ 2048 then some 2048
      else if n ≤ 4096 then some 4096
      else none := by
  unfold bucket MESSAGE_SIZES
  by_cases h1 : n ≤ 512
  · rw [List.find?_cons_of_pos _ (by simpa using h1), if_pos h1]
  rw [List.find?_cons_of_neg _ (by simpa using h1), if_neg h1]
  by_cases h2 : n ≤ 1024
  · rw [List.find?_cons_of_pos _ (by simpa using h2), if_pos h2]
  rw [List.find?_cons_of_neg _ (by simpa using h2), if_neg h2]
  by_cases h3 : n ≤ 2048
  · rw [List.find?_cons_of_pos _ (by simpa using h3), if_pos h3]
  rw [List.find?_cons_of_neg _ (by simpa using h3), if_neg h3]
  by_cases h4 : n ≤ 4096
  · rw [List.find?_cons_of_pos _ (by simpa using h4), if_pos h4]
  rw [List.find?_cons_of_neg _ (by simpa using h4), if_neg h4, List.find?_nil]

lemma bucket_none_iff (n : Nat) : bucket n = none ↔ 4096 < n := by
  rw [bucket_eq]
  split_ifs <;> simp <;> omega

lemma bucket_some_le {n t : Nat} (h : bucket n = some t) :
    n ≤ t ∧ t ∈ MESSAGE_SIZES := by
  rw [bucket_eq] at h
  unfold MESSAGE_SIZES
  split_ifs at h <;> simp_all

lemma padFill_length (padSize : Nat) (rand : Nat → Nat) (total : Nat) :
    (padFill padSize rand total).length = total := by
  unfold padFill
  split
  case isTrue h =>
    simp only [List.length_append, List.length_map, List.length_range]
    omega
  case isFalse h =>
    simp only [List.length_take, List.length_map, List.length_range]
    omega

/-- The successful shape of `pad_message`: a 4-byte length prefix, the
message, then padding filling the frame exactly to the chosen bucket. -/
lemma pad_message_spec (msg : List Nat) (padSize : Nat) (rand : Nat → Nat)
    {target : Nat} (hb : bucket (msg.length + padSize + 4) = some target) :
    pad_message msg padSize rand =
      some (pack32 msg.length ++ msg ++
        padFill padSize rand (target - msg.length - 4)) := by
  simp only [pad_message]
  rw [hb]

lemma pad_message_none_iff (msg : List Nat) (padSize : Nat) (rand : Nat → Nat) :
    pad_message msg padSize rand = none ↔ 4096 < msg.length + padSize + 4 := by
  simp only [pad_message]
  rw [bucket_eq]
  split_ifs <;> simp <;> omega

/-- Frame length equals the chosen bucket. -/
lemma pad_message_length (msg : List Nat) (padSize : Nat) (rand : Nat → Nat)
    {target : Nat} (hb : bucket (msg.length + padSize + 4) = some target) :
    (pad_message msg padSize rand).map List.length = some target := by
  have hle : msg.length + padSize + 4 ≤ target := (bucket_some_le hb).1
  rw [pad_message_spec msg padSize rand hb]
  simp only [Option.map_some', Option.some.injEq, List.length_append,
    padFill_length, pack32, List.length_cons, List.length_nil]
  omega

/-- Unpadding a padded frame recovers the message exactly. -/
lemma unpad_pad (msg : List Nat) (padSize : Nat) (rand : Nat → Nat)
    (h : msg.length + padSize + 4 ≤ 4096) :
    (pad_message msg padSize rand).bind unpad_message = some msg := by
  obtain ⟨target, hb⟩ : ∃ t, bucket (msg.length + padSize + 4) = some t := by
    cases hbk : bucket (msg.length + padSize + 4) with
    | none => exact absurd ((bucket_none_iff _).mp hbk) (by omega)
    | some t => exact ⟨t, rfl⟩
  have hle : msg.length + padSize + 4 ≤ target := (bucket_some_le hb).1
  rw [pad_message_spec msg padSize rand hb]
  set pad2 := padFill padSize rand (target - msg.length - 4) with hpad2
  have hlen : pad2.length = target - msg.length - 4 := padFill_length _ _ _
  have hmlt : msg.length < 4294967296 := by omega
  have hframe : (pack32 msg.length ++ msg ++ pad2).length
      = 4 + msg.length + pad2.length := by
    simp [pack32]
    omega
  show unpad_message (pack32 msg.length ++ msg ++ pad2) = some msg
  unfold unpad_message
  rw [if_neg (by omega)]
  have htake : (pack32 msg.length ++ msg ++ pad2).take 4 = pack32 msg.length := by
    rw [List.append_assoc]
    have h4 : (4 : Nat) = (pack32 msg.length).length := by simp [pack32]
    rw [h4, List.take_left]
  have hdrop : (pack32 msg.length ++ msg ++ pad2).drop 4 = msg ++ pad2 := by
    rw [List.append_assoc]
    have h4 : (4 : Nat) = (pack32 msg.length).length := by simp [pack32]
    rw [h4, List.drop_left]
  simp only [htake, hdrop, unpack32_pack32 _ hmlt]
  rw [if_neg (by omega), List.take_left]

/-- Decoding one encoded scalar value at the head of a byte stream. -/
lemma utf8Decode_encodeChar (c : Nat) (hc : ValidCp c) (rest : List Nat) :
    utf8Decode (utf8EncodeChar c ++ rest) =
      (utf8Decode rest).map (fun cs => c :: cs) := by
  obtain ⟨hlt, hsur⟩ := hc
  by_cases h1 : c < 128
  · simp only [utf8EncodeChar, if_pos h1, List.cons_append, List.nil_append]
    rw [utf8Decode.eq_def]
    dsimp only
    rw [if_pos h1]
  by_cases h2 : c < 2048
  · simp only [utf8EncodeChar, if_neg h1, if_pos h2, List.cons_append,
      List.nil_append]
    rw [utf8Decode.eq_def]
    dsimp only
    rw [if_neg (by omega), if_neg (by omega), if_pos (by omega),
      if_pos (by constructor <;> omega)]
    have hcp : (192 + c / 64 - 192) * 64 + (128 + c % 64 - 128) = c := by omega
    rw [hcp]
  by_cases h3 : c < 65536
  · simp only [utf8EncodeChar, if_neg h1, if_neg h2, if_pos h3,
      List.cons_append, List.nil_append]
    rw [utf8Decode.eq_def]
    dsimp only
    rw [if_neg (by omega), if_neg (by omega), if_neg (by omega),
      if_pos (by omega),
      if_pos (by refine ⟨by omega, by omega, by omega, by omega, by omega, by omega⟩)]
    have hcp : (224 + c / 4096 - 224) * 4096 + (128 + c / 64 % 64 - 128) * 64 +
        (128 + c % 64 - 128) = c := by omega
    rw [hcp]
  · simp only [utf8EncodeChar, if_neg h1, if_neg h2, if_neg h3,
      List.cons_append, List.nil_append]
    rw [utf8Decode.eq_def]
    dsimp only
    rw [if_neg (by omega), if_neg (by omega), if_neg (by omega),
      if_neg (by omega), if_pos (by omega),
      if_pos (by refine ⟨by omega, by omega, by omega, by omega, by omega,
        by omega, by omega, by omega⟩)]
    have hcp : (240 + c / 262144 - 240) * 262144 + (128 + c / 4096 % 64 - 128) * 4096 +
        (128 + c / 64 % 64 - 128) * 64 + (128 + c % 64 - 128) = c := by omega
    rw [hcp]

/-- Python's `s.encode("utf-8").decode("utf-8") == s`. -/
lemma utf8Decode_encode (s : List Nat) (hs : ∀ c ∈ s, ValidCp c) :
    utf8Decode (utf8Encode s) = some s := by
  induction s with
  | nil => rfl
  | cons c rest ih =>
    rw [show utf8Encode (c :: rest) = utf8EncodeChar c ++ utf8Encode rest from rfl]
    rw [utf8Decode_encodeChar c (hs c (List.mem_cons_self c rest)) _]
    rw [ih (fun x hx => hs x (List.mem_cons_of_mem c hx))]
    rfl

/-- ASCII strings encode to themselves. -/
lemma utf8Encode_ascii (s : List Nat) (hs : ∀ c ∈ s, c < 128) :
    utf8Encode s = s := by
  induction s with
  | nil => rfl
  | cons c rest ih =>
    rw [show utf8Encode (c :: rest) = utf8EncodeChar c ++ utf8Encode rest from rfl]
    rw [utf8EncodeChar, if_pos (hs c (List.mem_cons_self c rest))]
    rw [ih (fun x hx => hs x (List.mem_cons_of_mem c hx))]
    rfl

lemma b64DecChar_encChar : ∀ n, n < 64 → b64DecChar (b64EncChar n) = some n := by
  decide

lemma b64EncChar_ne_61 (n : Nat) : b64EncChar n ≠ 61 := by
  unfold b64EncChar
  split_ifs <;> omega

lemma b64EncChar_ge_45 (n : Nat) : 45 ≤ b64EncChar n := by
  unfold b64EncChar
  split_ifs <;> omega

lemma b64EncChar_lt_123 (n : Nat) : b64EncChar n < 123 := by
  unfold b64EncChar
  split_ifs <;> omega

/-- Every character the encoder emits is either in the alphabet or `=`. -/
lemma b64EncChar_passes (n : Nat) :
    ((b64DecChar (b64EncChar n)).isSome || b64EncChar n == 61) = true := by
  unfold b64EncChar b64DecChar
  split_ifs <;> simp_all <;> omega

lemma b64encode_chars : ∀ bs : List Nat, ∀ c ∈ b64encode bs,
    (45 ≤ c ∧ c < 123) ∧ ((b64DecChar c).isSome || c == 61) = true
  | [] => by intro c hc; simp [b64encode] at hc
  | [a] => by
    intro c hc
    simp only [b64encode, List.mem_cons, List.not_mem_nil, or_false] at hc
    rcases hc with h | h | h | h <;> subst h <;>
      first
        | exact ⟨⟨b64EncChar_ge_45 _, b64EncChar_lt_123 _⟩, b64EncChar_passes _⟩
        | exact ⟨⟨by omega, by omega⟩, rfl⟩
  | [a, b] => by
    intro c hc
    simp only [b64encode, List.mem_cons, List.not_mem_nil, or_false] at hc
    rcases hc with h | h | h | h <;> subst h <;>
      first
        | exact ⟨⟨b64EncChar_ge_45 _, b64EncChar_lt_123 _⟩, b64EncChar_passes _⟩
        | exact ⟨⟨by omega, by omega⟩, rfl⟩
  | a :: b :: c :: rest => by
    intro x hx
    simp only [b64encode, List.mem_cons] at hx
    rcases hx with h | h | h | h | h
    · subst h; exact ⟨⟨b64EncChar_ge_45 _, b64EncChar_lt_123 _⟩, b64EncChar_passes _⟩
    · subst h; exact ⟨⟨b64EncChar_ge_45 _, b64EncChar_lt_123 _⟩, b64EncChar_passes _⟩
    · subst h; exact ⟨⟨b64EncChar_ge_45 _, b64EncChar_lt_123 _⟩, b64EncChar_passes _⟩
    · subst h; exact ⟨⟨b64EncChar_ge_45 _, b64EncChar_lt_123 _⟩, b64EncChar_passes _⟩
    · exact b64encode_chars rest x h

lemma b64decodeRaw_encode : ∀ bs : List Nat, (∀ b ∈ bs, b < 256) →
    b64decodeRaw (b64encode bs) = some bs
  | [] => by intro _; rfl
  | [a] => by
    intro h
    have ha : a < 256 := h a (by simp)
    show b64decodeRaw [b64EncChar (a / 4), b64EncChar (a % 4 * 16), 61, 61]
      = some [a]
    rw [b64decodeRaw.eq_def]
    dsimp only
    rw [b64DecChar_encChar (a / 4) (by omega),
      b64DecChar_encChar (a % 4 * 16) (by omega)]
    dsimp only [Option.some_bind]
    rw [if_pos rfl, if_pos (And.intro rfl rfl)]
    congr 1
    have : a / 4 * 4 + a % 4 * 16 / 16 = a := by omega
    rw [this]
  | [a, b] => by
    intro h
    have ha : a < 256 := h a (by simp)
    have hb : b < 256 := h b (by simp)
    show b64decodeRaw [b64EncChar (a / 4), b64EncChar (a % 4 * 16 + b / 16),
      b64EncChar (b % 16 * 4), 61] = some [a, b]
    rw [b64decodeRaw.eq_def]
    dsimp only
    rw [b64DecChar_encChar (a / 4) (by omega),
      b64DecChar_encChar (a % 4 * 16 + b / 16) (by omega)]
    dsimp only [Option.some_bind]
    rw [if_neg (b64EncChar_ne_61 _),
      b64DecChar_encChar (b % 16 * 4) (by omega)]
    dsimp only [Option.some_bind]
    rw [if_pos rfl, if_pos rfl]
    congr 1
    have h1 : a / 4 * 4 + (a % 4 * 16 + b / 16) / 16 = a := by omega
    have h2 : (a % 4 * 16 + b / 16) % 16 * 16 + b % 16 * 4 / 4 = b := by omega
    rw [h1, h2]
  | a :: b :: c :: d :: rest => by
    intro h
    have ha : a < 256 := h a (by simp)
    have hb : b < 256 := h b (by simp)
    have hc : c < 256 := h c (by simp)
    show b64decodeRaw (b64EncChar (a / 4) :: b64EncChar (a % 4 * 16 + b / 16) ::
      b64EncChar (b % 16 * 4 + c / 64) :: b64EncChar (c % 64) ::
      b64encode (d :: rest)) = some (a :: b :: c :: d :: rest)
    rw [b64decodeRaw.eq_def]
    dsimp only
    rw [b64DecChar_encChar (a / 4) (by omega),
      b64DecChar_encChar (a % 4 * 16 + b / 16) (by omega)]
    dsimp only [Option.some_bind]
    rw [if_neg (b64EncChar_ne_61 _),
      b64DecChar_encChar (b % 16 * 4 + c / 64) (by omega)]
    dsimp only [Option.some_bind]
    rw [if_neg (b64EncChar_ne_61 _),
      b64DecChar_encChar (c % 64) (by omega)]
    dsimp only [Option.some_bind]
    rw [b64decodeRaw_encode (d :: rest) (fun x hx => h x (by simp [hx]))]
    dsimp only [Option.map_some']
    congr 1
    have h1 : a / 4 * 4 + (a % 4 * 16 + b / 16) / 16 = a := by omega
    have h2 : (a % 4 * 16 + b / 16) % 16 * 16 + (b % 16 * 4 + c / 64) / 4 = b := by
      omega
    have h3 : (b % 16 * 4 + c / 64) % 4 * 64 + c % 64 = c := by omega
    rw [h1, h2, h3]
  | [a, b, c] => by
    intro h
    have ha : a < 256 := h a (by simp)
    have hb : b < 256 := h b (by simp)
    have hc : c < 256 := h c (by simp)
    show b64decodeRaw (b64EncChar (a / 4) :: b64EncChar (a % 4 * 16 + b / 16) ::
      b64EncChar (b % 16 * 4 + c / 64) :: b64EncChar (c % 64) ::
      b64encode []) = some [a, b, c]
    rw [b64decodeRaw.eq_def]
    dsimp only
    rw [b64DecChar_encChar (a / 4) (by omega),
      b64DecChar_encChar (a % 4 * 16 + b / 16) (by omega)]
    dsimp only [Option.some_bind]
    rw [if_neg (b64EncChar_ne_61 _),
      b64DecChar_encChar (b % 16 * 4 + c / 64) (by omega)]
    dsimp only [Option.some_bind]
    rw [if_neg (b64EncChar_ne_61 _),
      b64DecChar_encChar (c % 64) (by omega)]
    dsimp only [Option.some_bind]
    rw [show b64decodeRaw (b64encode []) = some [] from rfl]
    dsimp only [Option.map_some']
    congr 1
    have h1 : a / 4 * 4 + (a % 4 * 16 + b / 16) / 16 = a := by omega
    have h2 : (a % 4 * 16 + b / 16) % 16 * 16 + (b % 16 * 4 + c / 64) / 4 = b := by
      omega
    have h3 : (b % 16 * 4 + c / 64) % 4 * 64 + c % 64 = c := by omega
    rw [h1, h2, h3]

lemma b64encode_length : ∀ bs : List Nat,
    (b64encode bs).length = (bs.length + 2) / 3 * 4
  | [] => rfl
  | [_] => by simp [b64encode]
  | [_, _] => by simp [b64encode]
  | a :: b :: c :: rest => by
    show (b64encode (a :: b :: c :: rest)).length
      = ((a :: b :: c :: rest).length + 2) / 3 * 4
    simp only [b64encode, List.length_cons, b64encode_length rest]
    omega

lemma b64decode_encode (bs : List Nat) (h : ∀ b ∈ bs, b < 256) :
    b64decode (b64encode bs) = some bs := by
  unfold b64decode
  rw [List.filter_eq_self.mpr (fun c hc => (b64encode_chars bs c hc).2)]
  exact b64decodeRaw_encode bs h

lemma dropWhile_eq_self_of (p : Nat → Bool) (s : List Nat)
    (h : ∀ c ∈ s, p c = false) : s.dropWhile p = s := by
  cases s with
  | nil => rfl
  | cons a rest =>
    rw [List.dropWhile_cons_of_neg]
    simp [h a (List.mem_cons_self a rest)]

lemma pyStrip_eq_self (s : List Nat) (h : ∀ c ∈ s, isPySpace c = false) :
    pyStrip s = s := by
  unfold pyStrip
  rw [dropWhile_eq_self_of _ _ h,
    dropWhile_eq_self_of _ _ (fun c hc => h c (List.mem_reverse.mp hc)),
    List.reverse_reverse]

lemma bucket_is_some {n : Nat} (h : n ≤ 4096) : ∃ t, bucket n = some t := by
  cases hbk : bucket n with
  | none => exact absurd ((bucket_none_iff _).mp hbk) (by omega)
  | some t => exact ⟨t, rfl⟩

lemma keyedMessenger_cipher : keyedMessenger.cipher_suite = some idCipher := rfl

/-- `encrypt_message` returns its state unchanged in every branch: the
source's `encrypt_message` never assigns any of the fields modelled by
`Messenger` — in particular it never touches `message_counter`.  (The one
field the source does mutate, `last_send_time` inside
`_apply_timing_obfuscation`, is timing state outside this model.) -/
lemma encrypt_message_state (st : Messenger) (message : List Nat)
    (padSize : Nat) (rand : Nat → Nat) :
    (encrypt_message st message padSize rand).2 = st := by
  unfold encrypt_message
  rcases st.cipher_suite with _ | c
  · rfl
  · dsimp only
    rcases pad_message (utf8Encode message) padSize rand with _ | padded <;> rfl

lemma isPrefixOf_append (l m : List Nat) : l.isPrefixOf (l ++ m) = true := by
  induction l with
  | nil => cases m <;> rfl
  | cons a as ih => simp [List.isPrefixOf, ih]

/-- Round-trip helper shared by the dummy-traffic analysis: a keyed
messenger with a correct cipher decrypts its own encryption of any
fitting plaintext. -/
lemma encrypt_then_decrypt (c : Cipher) (hc : ∀ x, c.dec (c.enc x) = some x)
    (st : Messenger) (hst : st.cipher_suite = some c) (P : List Nat)
    (hP : ∀ cp ∈ P, ValidCp cp) (padSize : Nat) (rand : Nat → Nat)
    (hfit : (utf8Encode P).length + padSize + 4 ≤ 4096) :
    ∃ tok, (encrypt_message st P padSize rand).1 = some tok ∧
      decrypt_message st tok = some P := by
  obtain ⟨t, hb⟩ := bucket_is_some hfit
  have hpad := pad_message_spec (utf8Encode P) padSize rand hb
  set frame := pack32 (utf8Encode P).length ++ utf8Encode P ++
    padFill padSize rand (t - (utf8Encode P).length - 4) with hframe
  have hunpad : unpad_message frame = some (utf8Encode P) := by
    have h := unpad_pad (utf8Encode P) padSize rand hfit
    rw [hpad] at h
    simpa using h
  refine ⟨c.enc frame, ?_, ?_⟩
  · simp only [encrypt_message, hst, hpad]
  · rw [decrypt_message, hst]
    simp only [decrypt_try, hc frame, hunpad, utf8Decode_encode P hP]

/-!
### Claim theorems
-/

/-- Claim C1 is false on the code: the very same 492-byte plaintext is
padded to a 512-byte frame when the drawn padding size is 16 and to a
1024-byte frame when it is 17 (both legal draws of
`secrets.randbelow(64) + 16`), so the emitted frame length is not
determined solely by the plaintext's bucket and not independent of the
random padding size. -/
theorem C1_counterexample_frame_length_depends_on_padding :
    (pad_message (List.replicate 492 65) 16 (fun _ => 0)).map List.length
        = some 512 ∧
    (pad_message (List.replicate 492 65) 17 (fun _ => 0)).map List.length
        = some 1024 := by
  have hl : (List.replicate 492 65).length = 492 := List.length_replicate 492 65
  constructor
  · have hb : bucket ((List.replicate 492 65).length + 16 + 4) = some 512 := by
      rw [hl]
      decide
    exact pad_message_length _ _ _ hb
  · have hb : bucket ((List.replicate 492 65).length + 17 + 4) = some 1024 := by
      rw [hl]
      decide
    exact pad_message_length _ _ _ hb

/-- Claim C1 (amended): whenever the padded size fits the largest bucket,
`len(_pad_message(P))` is a member of the fixed set {512, 1024, 2048, 4096}
and equals the smallest bucket that is at least
`len(P) + padding_size + 4` — so the frame length is determined by the
plaintext length TOGETHER WITH the drawn padding size (two frames have
identical length exactly when those sums select the same bucket), not by
the plaintext's bucket alone. -/
theorem C1_amended_frame_length_is_bucket_of_padded_size (msg : List Nat)
    (padSize : Nat) (rand : Nat → Nat)
    (hfit : msg.length + padSize + 4 ≤ 4096) :
    ∃ target, bucket (msg.length + padSize + 4) = some target ∧
      target ∈ MESSAGE_SIZES ∧
      (pad_message msg padSize rand).map List.length = some target := by
  obtain ⟨t, hb⟩ := bucket_is_some hfit
  exact ⟨t, hb, (bucket_some_le hb).2, pad_message_length _ _ _ hb⟩

/-- Witness for the amended C1 at a concrete input. -/
theorem C1_amended_witness :
    ([104] : List Nat).length + 16 + 4 ≤ 4096 ∧
    ∃ target, bucket (([104] : List Nat).length + 16 + 4) = some target ∧
      target ∈ MESSAGE_SIZES ∧
      (pad_message ([104] : List Nat) 16 (fun _ => 0)).map List.length
        = some target :=
  ⟨by decide,
   C1_amended_frame_length_is_bucket_of_padded_size [104] 16 (fun _ => 0)
     (by decide)⟩

/-- Claim C3: for every plaintext of at most 4000 bytes and every legal
draw of the random padding, `_unpad_message (_pad_message P) = P`, and the
result is a success value, never the failure value `None` — including the
empty plaintext (see the witness, which instantiates `msg := []`). -/
theorem C3_unpad_pad_roundtrip (msg : List Nat) (padSize : Nat)
    (rand : Nat → Nat) (hlen : msg.length ≤ 4000)
    (h1 : 16 ≤ padSize) (h2 : padSize ≤ 79) :
    (pad_message msg padSize rand).bind unpad_message = some msg ∧
    (pad_message msg padSize rand).bind unpad_message ≠ none := by
  have h := unpad_pad msg padSize rand (by omega)
  exact ⟨h, by rw [h]; exact Option.some_ne_none msg⟩

/-- Witness for C3 at the empty plaintext: it round-trips to the empty
byte string as a success value. -/
theorem C3_witness :
    ([] : List Nat).length ≤ 4000 ∧ 16 ≤ 16 ∧ 16 ≤ 79 ∧
    ((pad_message ([] : List Nat) 16 (fun _ => 0)).bind unpad_message
        = some [] ∧
      (pad_message ([] : List Nat) 16 (fun _ => 0)).bind unpad_message
        ≠ none) :=
  ⟨by decide, by decide, by decide,
   C3_unpad_pad_roundtrip [] 16 (fun _ => 0) (by decide) (by decide) (by decide)⟩

/-- Claim C4 is false on the code: on the reachable state of a fresh
keyed `SecureMessenger` (straight after `generate_key`, counter 0), one
successful `encrypt_message` call leaves `message_counter` at 0, not 1 —
`encrypt_message` never touches the counter. -/
theorem C4_counterexample_counter_not_incremented :
    (encrypt_message keyedMessenger [104] 16 (fun _ => 0)).1.isSome = true ∧
    keyedMessenger.message_counter = 0 ∧
    (encrypt_message keyedMessenger [104] 16 (fun _ => 0)).2.message_counter
      ≠ keyedMessenger.message_counter + 1 := by
  refine ⟨?_, rfl, ?_⟩
  · simp only [encrypt_message, keyedMessenger_cipher]
    have hb : bucket ((utf8Encode [104]).length + 16 + 4) = some 512 := by decide
    rw [pad_message_spec _ _ _ hb]
    rfl
  · rw [encrypt_message_state]
    simp

/-- Claim C4 (amended): `encrypt_message` leaves `message_counter`
unchanged on every call (keyed or not, successful or not); after `n`
encrypt calls on a fresh instance the counter is still 0, not `n`.  The
counter is only initialised in `__init__` and never incremented.  (This
says nothing about other fields: the source does mutate `last_send_time`
through `_apply_timing_obfuscation`; only the counter is at issue.) -/
theorem C4_amended_counter_unchanged (st : Messenger) (message : List Nat)
    (padSize : Nat) (rand : Nat → Nat) :
    (encrypt_message st message padSize rand).2.message_counter
      = st.message_counter := by
  rw [encrypt_message_state]

/-- Claim C5 is false on the code: a keyed messenger still returns `None`
for a 4077-byte message, because `next()` finds no bucket of at least
4097 bytes and the raised `StopIteration` is swallowed by the `except`
handler. -/
theorem C5_counterexample_keyed_encrypt_returns_none :
    keyedMessenger.cipher_suite ≠ none ∧
    (encrypt_message keyedMessenger (List.replicate 4077 104) 16
      (fun _ => 0)).1 = none := by
  constructor
  · rw [keyedMessenger_cipher]
    exact Option.some_ne_none idCipher
  · have henc : utf8Encode (List.replicate 4077 104) = List.replicate 4077 104 :=
      utf8Encode_ascii _ (by
        intro c hc
        have := List.eq_of_mem_replicate hc
        omega)
    have hp : pad_message (utf8Encode (List.replicate 4077 104)) 16 (fun _ => 0)
        = none := by
      rw [pad_message_none_iff, henc, List.length_replicate]
      omega
    simp only [encrypt_message, keyedMessenger_cipher, hp]

/-- Claim C5 (amended): `encrypt_message` never raises (every raising
step of the `try` body lands in the `except` handler), and it returns
`None` if and only if either no cipher suite is set (Uninitialized) or
the UTF-8 length of the message plus the drawn padding size plus the
4-byte length prefix exceeds the largest bucket, 4096 bytes — so a keyed
messenger fails exactly on oversized messages. -/
theorem C5_amended_encrypt_none_iff (st : Messenger) (message : List Nat)
    (padSize : Nat) (rand : Nat → Nat) :
    (encrypt_message st message padSize rand).1 = none ↔
      st.cipher_suite = none ∨
        4096 < (utf8Encode message).length + padSize + 4 := by
  rcases hcs : st.cipher_suite with _ | c
  · simp [encrypt_message, hcs]
  · rcases hp : pad_message (utf8Encode message) padSize rand with _ | padded
    · simp only [encrypt_message, hcs]
      rw [hp]
      simp only [true_iff]
      exact Or.inr ((pad_message_none_iff _ _ _).mp hp)
    · simp only [encrypt_message, hcs]
      rw [hp]
      simp only [reduceCtorEq, false_iff]
      push_neg
      constructor
      · exact not_false
      · by_contra hgt
        push_neg at hgt
        have hnone : pad_message (utf8Encode message) padSize rand = none :=
          (pad_message_none_iff _ _ _).mpr hgt
        rw [hnone] at hp
        exact Option.noConfusion hp

/-- Claim C2 is false on the code: `keyedMessenger` is keyed (the state
right after `generate_key`), yet `encrypt_message` on a 5000-character
plaintext returns `None`, so `decrypt(encrypt(P))` cannot return `P` for
every plaintext. -/
theorem C2_counterexample_roundtrip_fails_on_long_plaintext :
    keyedMessenger.cipher_suite.isSome = true ∧
    (encrypt_message keyedMessenger (List.replicate 5000 65) 16
      (fun _ => 0)).1 = none := by
  constructor
  · rfl
  · have henc : utf8Encode (List.replicate 5000 65) = List.replicate 5000 65 :=
      utf8Encode_ascii _ (by
        intro c hc
        have := List.eq_of_mem_replicate hc
        omega)
    have hp : pad_message (utf8Encode (List.replicate 5000 65)) 16 (fun _ => 0)
        = none := by
      rw [pad_message_none_iff, henc, List.length_replicate]
      omega
    simp only [encrypt_message, keyedMessenger_cipher, hp]

/-- Claim C2 (amended): under any key material with a correct cipher
(`dec ∘ enc = some`, which Fernet provides), and for every plaintext
whose UTF-8 encoding is at most 4013 bytes — so that the padded frame
fits the largest bucket for every legal padding draw —
`decrypt_message (encrypt_message P) = some P` on the same key material
instance.  For longer plaintexts encryption itself returns `None`
(see the counterexample). -/
theorem C2_amended_encrypt_decrypt_roundtrip (c : Cipher)
    (hc : ∀ x, c.dec (c.enc x) = some x) (st : Messenger)
    (hst : st.cipher_suite = some c) (P : List Nat)
    (hP : ∀ cp ∈ P, ValidCp cp) (hlen : (utf8Encode P).length ≤ 4013)
    (padSize : Nat) (h1 : 16 ≤ padSize) (h2 : padSize ≤ 79)
    (rand : Nat → Nat) :
    ∃ tok, (encrypt_message st P padSize rand).1 = some tok ∧
      decrypt_message (encrypt_message st P padSize rand).2 tok = some P := by
  have hfit : (utf8Encode P).length + padSize + 4 ≤ 4096 := by omega
  obtain ⟨t, hb⟩ := bucket_is_some hfit
  have hpad := pad_message_spec (utf8Encode P) padSize rand hb
  set frame := pack32 (utf8Encode P).length ++ utf8Encode P ++
    padFill padSize rand (t - (utf8Encode P).length - 4) with hframe
  have hunpad : unpad_message frame = some (utf8Encode P) := by
    have h := unpad_pad (utf8Encode P) padSize rand hfit
    rw [hpad] at h
    simpa using h
  refine ⟨c.enc frame, ?_, ?_⟩
  · simp only [encrypt_message, hst, hpad]
  · rw [encrypt_message_state, decrypt_message, hst]
    simp only [decrypt_try, hc frame, hunpad, utf8Decode_encode P hP]

/-- Witness for the amended C2 at a concrete input: the two-character
plaintext `"hi"` round-trips under `idCipher` on `keyedMessenger`. -/
theorem C2_amended_witness :
    (∀ x, idCipher.dec (idCipher.enc x) = some x) ∧
    keyedMessenger.cipher_suite = some idCipher ∧
    (∀ cp ∈ [104, 105], ValidCp cp) ∧
    (utf8Encode [104, 105]).length ≤ 4013 ∧
    ∃ tok, (encrypt_message keyedMessenger [104, 105] 16 (fun _ => 0)).1
        = some tok ∧
      decrypt_message (encrypt_message keyedMessenger [104, 105] 16
        (fun _ => 0)).2 tok = some [104, 105] :=
  ⟨fun _ => rfl, rfl, by decide, by decide,
   C2_amended_encrypt_decrypt_roundtrip idCipher (fun _ => rfl) keyedMessenger
     rfl [104, 105] (by decide) (by decide) 16 (by decide) (by decide)
     (fun _ => 0)⟩

/-- Claim C6: `decrypt_message` is total — for every key state and every
input token it yields `None` or a plaintext, never an escaped exception:
an unkeyed state short-circuits to `None`, and every raising path of the
`try` body (`Fernet.decrypt` rejecting the token, plus either UTF-8
decode failing) is mapped to `None` by the `except` handler. -/
theorem C6_decrypt_total (st : Messenger) (token : List Nat) :
    ((decrypt_message st token = none) ∨
      ∃ m, decrypt_message st token = some m) ∧
    (st.cipher_suite = none → decrypt_message st token = none) ∧
    (∀ c, st.cipher_suite = some c → decrypt_try c token = PyOutcome.exn →
      decrypt_message st token = none) := by
  refine ⟨?_, ?_, ?_⟩
  · cases h : decrypt_message st token with
    | none => exact Or.inl rfl
    | some m => exact Or.inr ⟨m, rfl⟩
  · intro h
    simp [decrypt_message, h]
  · intro c hc hexn
    simp [decrypt_message, hc, hexn]

/-- Witness for C6 at a concrete input: an uninitialized messenger fed
an arbitrary one-byte token. -/
theorem C6_witness :
    (((decrypt_message initMessenger [0] = none) ∨
        ∃ m, decrypt_message initMessenger [0] = some m) ∧
      (initMessenger.cipher_suite = none →
        decrypt_message initMessenger [0] = none) ∧
      (∀ c, initMessenger.cipher_suite = some c →
        decrypt_try c [0] = PyOutcome.exn →
        decrypt_message initMessenger [0] = none)) :=
  C6_decrypt_total initMessenger [0]

/-- Claim C10: when `Fernet.decrypt` succeeds but `_unpad_message` rejects
the payload, `decrypt_message` does not fail: it returns the whole
decrypted payload UTF-8-decoded (the source's legacy-format branch),
whenever that decode succeeds. -/
theorem C10_legacy_format_fallback (st : Messenger) (c : Cipher)
    (token padded s : List Nat) (hst : st.cipher_suite = some c)
    (hdec : c.dec token = some padded)
    (hunpad : unpad_message padded = none)
    (hutf : utf8Decode padded = some s) :
    decrypt_message st token = some s := by
  simp only [decrypt_message, hst, decrypt_try, hdec, hunpad, hutf]

/-- Witness for C10: a two-byte payload is too short to unpad, and the
legacy branch returns it decoded. -/
theorem C10_witness :
    keyedMessenger.cipher_suite = some idCipher ∧
    idCipher.dec [65, 66] = some [65, 66] ∧
    unpad_message [65, 66] = none ∧
    utf8Decode [65, 66] = some [65, 66] ∧
    decrypt_message keyedMessenger [65, 66] = some [65, 66] :=
  ⟨rfl, rfl, by decide, by decide,
   C10_legacy_format_fallback keyedMessenger idCipher [65, 66] [65, 66]
     [65, 66] rfl rfl (by decide) (by decide)⟩

/-- Claim C9: a dummy message built by `generate_dummy_message` (marker
`"DUMMY:"` plus drawn hex filler), decrypted under the same key material,
satisfies `is_dummy_message` and is excluded from the plaintext sink by
the receive loop; and conversely every decrypted plaintext that starts
with the reserved marker — including a legitimate message — is classified
as dummy and silently dropped. -/
theorem C9_dummy_classified_and_dropped (c : Cipher)
    (hc : ∀ x, c.dec (c.enc x) = some x) (st : Messenger)
    (hst : st.cipher_suite = some c) (content : List Nat)
    (hcontent : ∀ x ∈ content, isHexDigitChar x = true)
    (hlen1 : 100 ≤ content.length) (hlen2 : content.length ≤ 298)
    (padSize : Nat) (h1 : 16 ≤ padSize) (h2 : padSize ≤ 79)
    (rand : Nat → Nat) :
    (∃ tok, (generate_dummy_message st content padSize rand).1 = some tok ∧
      decrypt_message st tok = some (dummyMarker ++ content) ∧
      is_dummy_message (dummyMarker ++ content) = true ∧
      receive_step st tok = none) ∧
    (∀ tok m, decrypt_message st tok = some m →
      dummyMarker.isPrefixOf m = true → receive_step st tok = none) := by
  have hascii : ∀ cp ∈ dummyMarker ++ content, cp < 128 := by
    intro cp hcp
    rcases List.mem_append.mp hcp with hm | hm
    · unfold dummyMarker at hm
      simp only [List.mem_cons, List.not_mem_nil, or_false] at hm
      rcases hm with h | h | h | h | h | h <;> omega
    · have := hcontent cp hm
      unfold isHexDigitChar at this
      simp only [Bool.or_eq_true, Bool.and_eq_true, decide_eq_true_eq] at this
      omega
  have hvalid : ∀ cp ∈ dummyMarker ++ content, ValidCp cp := by
    intro cp hcp
    have := hascii cp hcp
    exact ⟨by omega, by omega⟩
  have henc : utf8Encode (dummyMarker ++ content) = dummyMarker ++ content :=
    utf8Encode_ascii _ hascii
  have hfit : (utf8Encode (dummyMarker ++ content)).length + padSize + 4
      ≤ 4096 := by
    rw [henc]
    simp only [List.length_append]
    unfold dummyMarker
    simp only [List.length_cons, List.length_nil]
    omega
  have hdummy : is_dummy_message (dummyMarker ++ content) = true := by
    unfold is_dummy_message
    rw [isPrefixOf_append]
    unfold dummyMarker
    rfl
  constructor
  · obtain ⟨tok, htok, hdec⟩ := encrypt_then_decrypt c hc st hst
      (dummyMarker ++ content) hvalid padSize rand hfit
    refine ⟨tok, ?_, hdec, hdummy, ?_⟩
    · unfold generate_dummy_message
      exact htok
    · have hne : (dummyMarker ++ content).isEmpty = false := by
        unfold dummyMarker
        rfl
      simp [receive_step, hdec, hne, hdummy]
  · intro tok m hdec hpre
    cases m with
    | nil =>
      unfold dummyMarker at hpre
      simp [List.isPrefixOf] at hpre
    | cons a rest =>
      have hd : is_dummy_message (a :: rest) = true := by
        unfold is_dummy_message
        rw [hpre]
        rfl
      simp [receive_step, hdec, hd]

/-- Witness for C9 at a concrete input: 100 repetitions of the hex digit
`a` as filler. -/
theorem C9_witness :
    (∀ x, idCipher.dec (idCipher.enc x) = some x) ∧
    keyedMessenger.cipher_suite = some idCipher ∧
    (∀ x ∈ List.replicate 100 97, isHexDigitChar x = true) ∧
    100 ≤ (List.replicate 100 97).length ∧
    (List.replicate 100 97).length ≤ 298 ∧
    ((∃ tok, (generate_dummy_message keyedMessenger (List.replicate 100 97) 16
          (fun _ => 0)).1 = some tok ∧
        decrypt_message keyedMessenger tok
          = some (dummyMarker ++ List.replicate 100 97) ∧
        is_dummy_message (dummyMarker ++ List.replicate 100 97) = true ∧
        receive_step keyedMessenger tok = none) ∧
      (∀ tok m, decrypt_message keyedMessenger tok = some m →
        dummyMarker.isPrefixOf m = true →
        receive_step keyedMessenger tok = none)) :=
  ⟨fun _ => rfl, rfl, by decide, by decide, by decide,
   C9_dummy_classified_and_dropped idCipher (fun _ => rfl) keyedMessenger rfl
     (List.replicate 100 97) (by decide) (by decide) (by decide) 16
     (by decide) (by decide) (fun _ => 0)⟩

/-- Claim C7: decoding the encoded connection token recovers the original
symmetric key bytes exactly.  `generate_key` stores
`key = urlsafe_b64encode(raw)` for 32 random bytes `raw` and returns the
token `urlsafe_b64encode(key)`; `set_key` on that token (after stripping
and padding restoration, both no-ops here) succeeds and stores a `key`
field byte-for-byte equal to the generator's. -/
theorem C7_generate_set_key_roundtrip (mk : List Nat → Cipher)
    (raw : List Nat) (hlen : raw.length = 32)
    (hbytes : ∀ b ∈ raw, b < 256) (st1 st2 : Messenger) :
    (set_key mk st2 (generate_key mk raw st1).1).1 = true ∧
    (set_key mk st2 (generate_key mk raw st1).1).2.key
      = (generate_key mk raw st1).2.key ∧
    (generate_key mk raw st1).2.key = some (b64encode raw) := by
  have hkeyb : ∀ b ∈ b64encode raw, b < 256 := by
    intro b hb
    have := (b64encode_chars raw b hb).1.2
    omega
  have htok_nospace : ∀ ch ∈ b64encode (b64encode raw), isPySpace ch = false := by
    intro ch hch
    have h45 := (b64encode_chars (b64encode raw) ch hch).1.1
    unfold isPySpace
    simp only [Bool.or_eq_false_iff, beq_eq_false_iff_ne, Ne]
    omega
  have hstrip : pyStrip (b64encode (b64encode raw)) = b64encode (b64encode raw) :=
    pyStrip_eq_self _ htok_nospace
  have hmod : (b64encode (b64encode raw)).length % 4 = 0 := by
    rw [b64encode_length]
    omega
  have hdectok : b64decode (b64encode (b64encode raw)) = some (b64encode raw) :=
    b64decode_encode _ hkeyb
  have hdeckey : b64decode (b64encode raw) = some raw :=
    b64decode_encode raw hbytes
  simp only [generate_key, set_key]
  rw [hstrip, if_pos hmod, hdectok]
  unfold fernetFromKey
  dsimp only
  rw [hdeckey]
  dsimp only
  rw [if_pos hlen]
  exact ⟨rfl, rfl, trivial⟩

/-- Witness for C7 at a concrete 32-byte key. -/
theorem C7_witness :
    (List.replicate 32 0).length = 32 ∧
    (∀ b ∈ List.replicate 32 0, b < 256) ∧
    ((set_key (fun _ => idCipher) initMessenger
        (generate_key (fun _ => idCipher) (List.replicate 32 0)
          initMessenger).1).1 = true ∧
      (set_key (fun _ => idCipher) initMessenger
        (generate_key (fun _ => idCipher) (List.replicate 32 0)
          initMessenger).1).2.key
        = (generate_key (fun _ => idCipher) (List.replicate 32 0)
            initMessenger).2.key ∧
      (generate_key (fun _ => idCipher) (List.replicate 32 0)
          initMessenger).2.key = some (b64encode (List.replicate 32 0))) :=
  ⟨by decide, by decide,
   C7_generate_set_key_roundtrip (fun _ => idCipher) (List.replicate 32 0)
     (by decide) (by decide) initMessenger initMessenger⟩

/-- Claim C8 describes the intended relay behaviour, but the code has a
bug: `handle_client` iterates `for client in self.clients` over the live
list and calls `self.clients.remove(client)` inside the loop, so after a
failed send the Python iterator skips the next peer.  Concretely, with
peers `[0, 1, 2, 3]`, sender `0`, and peer `1` failing: when all sends
succeed every peer but the sender receives the frame, but with peer `1`
failing the delivery list is `[3]` — peer `2` remains connected (it is in
the final peer list `[0, 2, 3]`) yet a send to it is never attempted. -/
theorem C8_relay_skips_peer_after_failed_send :
    handle_client_forward (fun _ => true) [0, 1, 2, 3] 0
      = ([0, 1, 2, 3], [1, 2, 3]) ∧
    handle_client_forward (fun p => !(p == 1)) [0, 1, 2, 3] 0
      = ([0, 2, 3], [3]) := by
  constructor
  · simp [handle_client_forward, relayLoop, List.erase]
    decide
  · simp [handle_client_forward, relayLoop, List.erase]
